import Mathlib

/-!
Verification of the TOC-generator core (`toc_tool_AGT.py`): outline
flattening, PDF page layout with title truncation, tabular sheet writing,
and the cumulative master-ledger merge with deduplication.

Strings from the Python source are modelled as `List Char`; page numbers as
`Option Nat` (the resolved 1-based destination page, `none` on resolution
failure); real-valued layout coordinates as `ℚ` (ReportLab's `mm` unit is
the exact rational `72 / 25.4`).
-/

namespace TocTool

/-- Whitespace test mirroring Python `str.strip` / `str.rstrip` for the
ASCII whitespace characters. -/
def isWS (c : Char) : Bool :=
  c = ' ' || c = '\t' || c = '\n' || c = '\r' || c = '\x0b' || c = '\x0c'

/-- Python `s.strip()`: drop leading and trailing whitespace. -/
def strip (s : List Char) : List Char :=
  ((s.dropWhile isWS).reverse.dropWhile isWS).reverse

/-- Python `s.rstrip()`: drop trailing whitespace. -/
def rstrip (s : List Char) : List Char :=
  (s.reverse.dropWhile isWS).reverse

/-- One element of the raw outline sequence returned by the PDF reader:
either a bookmark node (title already read off the destination object,
page already resolved, `none` when `get_destination_page_number` raised)
or a nested sub-list. -/
inductive RawItem where
  | node (title : List Char) (page : Option Nat)
  | group (children : List RawItem)

/-- A flattened TOC entry `(level, title, page)` as produced by
`extract_bookmarks`. -/
abbrev Entry := Nat × List Char × Option Nat

/-- The inner `walk_outline(seq, level)` closure of `extract_bookmarks`
(lines 48-65): iterate over the sequence; a bare sub-list is walked one
level deeper; a node is emitted as `(level, str(title).strip(), page)` and,
when it is immediately followed by a sub-list, that list is walked one
level deeper and skipped. -/
def walk_outline : List RawItem → Nat → List Entry
  | [], _ => []
  | .group g :: rest, lvl => walk_outline g (lvl + 1) ++ walk_outline rest lvl
  | [.node t p], lvl => [(lvl, strip t, p)]
  | .node t p :: .group g :: rest, lvl =>
      (lvl, strip t, p) :: (walk_outline g (lvl + 1) ++ walk_outline rest lvl)
  | .node t p :: .node t2 p2 :: rest, lvl =>
      (lvl, strip t, p) :: walk_outline (.node t2 p2 :: rest) lvl

/-- The raw structure `reader.outline` handed to `extract_bookmarks`:
either a (possibly empty) list of items, or a single non-list object
(the fallback branch, lines 69-77). -/
inductive RawOutline where
  | list (items : List RawItem)
  | single (title : List Char) (page : Option Nat)

/-- `extract_bookmarks` (lines 41-79): walk a list structure starting at
level 1; a non-list structure yields the single entry `(1, title, page)`. -/
def extract_bookmarks : RawOutline → List Entry
  | .list items => walk_outline items 1
  | .single t p => [(1, strip t, p)]

/-- The `(title, page)` pairs of all nodes of a raw sequence, in
left-to-right depth-first order (titles stripped, for comparison with the
flattener's output). A measurement device for the no-duplicate/no-drop
property; not part of the source. -/
def nodesOf : List RawItem → List (List Char × Option Nat)
  | [] => []
  | .node t p :: rest => (strip t, p) :: nodesOf rest
  | .group g :: rest => nodesOf g ++ nodesOf rest

/-- Node count of a whole raw outline structure. -/
def outlineNodeCount : RawOutline → Nat
  | .list items => (nodesOf items).length
  | .single _ _ => 1

example : walk_outline [.node ['a'] (some 1), .group [.node ['b'] (some 2)],
    .node ['c'] none] 1 =
    [(1, ['a'], some 1), (2, ['b'], some 2), (1, ['c'], none)] := by
  simp [walk_outline, strip, List.dropWhile, isWS]

example : nodesOf [.node ['a'] (some 1), .group [.node ['b'] (some 2)],
    .node ['c'] none] = [(['a'], some 1), (['b'], some 2), (['c'], none)] := by
  simp [nodesOf, strip, List.dropWhile, isWS]

/-- An abstract outline tree: a titled node with a page target and a list
of children. Reference semantics for the flattener (from the spec's words:
depth-first pre-order, children one level deeper). -/
inductive ONode where
  | mk (title : List Char) (page : Option Nat) (children : List ONode)

mutual

/-- Modelled from the spec: pre-order flattening of one outline node —
record `(level, title, page)` first, then the children at `level + 1`. -/
def flattenNode : ONode → Nat → List Entry
  | .mk t p cs, lvl => (lvl, strip t, p) :: flattenForest cs (lvl + 1)

/-- Modelled from the spec: pre-order flattening of a sibling list. -/
def flattenForest : List ONode → Nat → List Entry
  | [], _ => []
  | n :: ns, lvl => flattenNode n lvl ++ flattenForest ns lvl

end

mutual

/-- Render an outline tree in the raw representation the PDF reader
produces ("child list as sibling of parent"): the node, immediately
followed by a sub-list holding its children, when it has any. -/
def renderNode : ONode → List RawItem
  | .mk t p cs =>
      match cs with
      | [] => [.node t p]
      | _ :: _ => [.node t p, .group (renderForest cs)]

/-- Render a sibling list in the raw "child list as sibling" form. -/
def renderForest : List ONode → List RawItem
  | [] => []
  | n :: ns => renderNode n ++ renderForest ns

end

theorem renderForest_ne_group (ns : List ONode) (g : List RawItem)
    (rest : List RawItem) : renderForest ns ≠ .group g :: rest := by
  cases ns with
  | nil => simp [renderForest]
  | cons n ns =>
    obtain ⟨t, p, cs⟩ := n
    cases cs <;> simp [renderForest, renderNode]

theorem renderForest_eq_nil_iff (ns : List ONode) :
    renderForest ns = [] ↔ ns = [] := by
  cases ns with
  | nil => simp [renderForest]
  | cons n ns =>
    obtain ⟨t, p, cs⟩ := n
    cases cs <;> simp [renderForest, renderNode]

/-- The walk of a sibling-convention rendering is exactly the pre-order
flattening of the forest. -/
theorem walk_renderForest : ∀ (ts : List ONode) (lvl : Nat),
    walk_outline (renderForest ts) lvl = flattenForest ts lvl
  | [], lvl => by simp [renderForest, flattenForest, walk_outline]
  | ⟨t, p, []⟩ :: ns, lvl => by
    have hns := walk_renderForest ns lvl
    rw [renderForest]
    show walk_outline (.node t p :: renderForest ns) lvl = _
    rcases hh : renderForest ns with _ | ⟨it, rest⟩
    · rw [(renderForest_eq_nil_iff ns).mp hh]
      simp [walk_outline, flattenForest, flattenNode]
    · cases it with
      | node t2 p2 =>
        rw [walk_outline, ← hh, hns]
        simp [flattenForest, flattenNode]
      | group g => exact absurd hh (renderForest_ne_group ns g rest)
  | ⟨t, p, c :: cs⟩ :: ns, lvl => by
    have h1 := walk_renderForest (c :: cs) (lvl + 1)
    have h2 := walk_renderForest ns lvl
    rw [renderForest]
    show walk_outline (.node t p :: .group (renderForest (c :: cs)) ::
      renderForest ns) lvl = _
    rw [walk_outline, h1, h2]
    simp [flattenForest, flattenNode]
termination_by ts _ => sizeOf ts

/-- The `(title, page)` projection of the walk's output lists every node of
the raw structure exactly once, in depth-first order — no duplicates, no
drops, whichever way nesting is expressed. -/
theorem walk_outline_proj (seq : List RawItem) (lvl : Nat) :
    (walk_outline seq lvl).map (fun e => (e.2.1, e.2.2)) = nodesOf seq := by
  induction seq, lvl using walk_outline.induct with
  | case1 lvl => simp [walk_outline, nodesOf]
  | case2 g rest lvl ih1 ih2 => simp [walk_outline, nodesOf, ih1, ih2]
  | case3 t p lvl => simp [walk_outline, nodesOf]
  | case4 t p g rest lvl ih1 ih2 => simp [walk_outline, nodesOf, ih1, ih2]
  | case5 t p t2 p2 rest lvl ih => simp [walk_outline, nodesOf, ih]

theorem extract_bookmarks_nil_iff (o : RawOutline) :
    extract_bookmarks o = [] ↔ outlineNodeCount o = 0 := by
  cases o with
  | list items =>
    simp only [extract_bookmarks, outlineNodeCount, List.length_eq_zero]
    constructor
    · intro h
      have := walk_outline_proj items 1
      rw [h] at this
      simpa using this.symm
    · intro h
      have := walk_outline_proj items 1
      rw [h] at this
      exact List.map_eq_nil_iff.mp this
  | single t p => simp [extract_bookmarks, outlineNodeCount]

/-- Does a raw sequence begin with a node (rather than a sub-list)? -/
def headNode : List RawItem → Bool
  | .node _ _ :: _ => true
  | _ => false

/-- Well-nested raw structures: every sub-list begins with a node. Both
nesting conventions the reader emits ("children as the sub-list following
their parent", "children grouped right after the parent node") produce
only such structures; a sub-list whose first element is again a sub-list
is an orphan group with no parent node. -/
def okSeq : List RawItem → Bool
  | [] => true
  | .node _ _ :: rest => okSeq rest
  | .group g :: rest => headNode g && okSeq g && okSeq rest

/-- Every entry the walk emits sits at the walk's starting level or
deeper. -/
theorem walk_outline_level_ge (seq : List RawItem) (lvl : Nat) :
    ∀ e ∈ walk_outline seq lvl, lvl ≤ e.1 := by
  induction seq, lvl using walk_outline.induct with
  | case1 lvl => simp [walk_outline]
  | case2 g rest lvl ih1 ih2 =>
    intro e he
    rw [walk_outline] at he
    rcases List.mem_append.mp he with h | h
    · exact Nat.le_of_succ_le (ih1 e h)
    · exact ih2 e h
  | case3 t p lvl => simp [walk_outline]
  | case4 t p g rest lvl ih1 ih2 =>
    intro e he
    rw [walk_outline] at he
    rcases List.mem_cons.mp he with h | h
    · simp [h]
    · rcases List.mem_append.mp h with h | h
      · exact Nat.le_of_succ_le (ih1 e h)
      · exact ih2 e h
  | case5 t p t2 p2 rest lvl ih =>
    intro e he
    rw [walk_outline] at he
    rcases List.mem_cons.mp he with h | h
    · simp [h]
    · exact ih e h

/-- A sequence starting with a node walks to a list starting with that
node's entry, at exactly the starting level. -/
theorem walk_outline_cons_node (t : List Char) (p : Option Nat)
    (rest : List RawItem) (lvl : Nat) :
    ∃ tail, walk_outline (.node t p :: rest) lvl = (lvl, strip t, p) :: tail := by
  cases rest with
  | nil => exact ⟨[], by simp [walk_outline]⟩
  | cons it rest => cases it <;> exact ⟨_, by rw [walk_outline]⟩

/-- For a well-nested sequence the first emitted entry sits at most one
level below the starting level. -/
theorem walk_outline_head_le (seq : List RawItem) (lvl : Nat)
    (hok : okSeq seq = true) :
    ∀ e ∈ (walk_outline seq lvl).head?, e.1 ≤ lvl + 1 := by
  cases seq with
  | nil => simp [walk_outline]
  | cons it rest =>
    cases it with
    | node t p =>
      obtain ⟨tail, htail⟩ := walk_outline_cons_node t p rest lvl
      rw [htail]
      simp
    | group g =>
      rw [okSeq] at hok
      simp only [Bool.and_eq_true] at hok
      obtain ⟨⟨hhead, _⟩, _⟩ := hok
      cases g with
      | nil => simp [headNode] at hhead
      | cons gi grest =>
        cases gi with
        | node tg pg =>
          obtain ⟨tail, htail⟩ := walk_outline_cons_node tg pg grest (lvl + 1)
          rw [walk_outline, htail]
          simp
        | group _ => simp [headNode] at hhead

/-- C1: `extract_bookmarks` flattens in depth-first pre-order with the
root's direct children at level 1 (walking a sibling-convention rendering
of any outline forest reproduces its pre-order flattening started at
level 1); for every raw sequence, whichever way nesting is expressed, the
emitted `(title, page)` pairs are exactly the structure's nodes in order —
nothing duplicated, nothing dropped; and the output is empty exactly when
the structure holds no node at all (in particular a single non-grouped
node yields a one-element sequence). -/
theorem extract_bookmarks_correct :
    (∀ ts : List ONode,
      extract_bookmarks (.list (renderForest ts)) = flattenForest ts 1)
    ∧ (∀ (seq : List RawItem) (lvl : Nat),
      (walk_outline seq lvl).map (fun e => (e.2.1, e.2.2)) = nodesOf seq)
    ∧ (∀ o : RawOutline, extract_bookmarks o = [] ↔ outlineNodeCount o = 0) := by
  refine ⟨fun ts => ?_, walk_outline_proj, extract_bookmarks_nil_iff⟩
  simpa [extract_bookmarks] using walk_renderForest ts 1

/-- C7 (amended): on well-nested structures — every sub-list begins with a
node, as both nesting conventions guarantee — consecutive entries of the
walk never step up by more than one level: each entry's level is at most
one greater than its predecessor's (hence at most one greater than the
maximum level seen so far). -/
theorem walk_outline_chain (seq : List RawItem) (lvl : Nat)
    (hok : okSeq seq = true) :
    List.Chain' (fun a b : Entry => b.1 ≤ a.1 + 1) (walk_outline seq lvl) := by
  induction seq, lvl using walk_outline.induct with
  | case1 lvl => simp [walk_outline]
  | case2 g rest lvl ih1 ih2 =>
    rw [okSeq] at hok
    simp only [Bool.and_eq_true] at hok
    obtain ⟨⟨hhead, hg⟩, hrest⟩ := hok
    rw [walk_outline, List.chain'_append]
    refine ⟨ih1 hg, ih2 hrest, fun x hx y hy => ?_⟩
    have hxlvl : lvl + 1 ≤ x.1 :=
      walk_outline_level_ge g (lvl + 1) x (List.mem_of_mem_getLast? hx)
    have hylvl : y.1 ≤ lvl + 1 := walk_outline_head_le rest lvl hrest y hy
    omega
  | case3 t p lvl => simp [walk_outline]
  | case4 t p g rest lvl ih1 ih2 =>
    rw [okSeq, okSeq] at hok
    simp only [Bool.and_eq_true] at hok
    obtain ⟨⟨hhead, hg⟩, hrest⟩ := hok
    rw [walk_outline, List.chain'_cons']
    constructor
    · intro h hh
      rcases hg' : g with _ | ⟨gi, grest⟩
      · simp [hg', headNode] at hhead
      · cases gi with
        | node tg pg =>
          obtain ⟨tail, htail⟩ := walk_outline_cons_node tg pg grest (lvl + 1)
          rw [hg', htail] at hh
          simp at hh
          simp [← hh]
        | group _ => simp [hg', headNode] at hhead
    · rw [List.chain'_append]
      refine ⟨ih1 hg, ih2 hrest, fun x hx y hy => ?_⟩
      have hxlvl : lvl + 1 ≤ x.1 :=
        walk_outline_level_ge g (lvl + 1) x (List.mem_of_mem_getLast? hx)
      have hylvl : y.1 ≤ lvl + 1 := walk_outline_head_le rest lvl hrest y hy
      omega
  | case5 t p t2 p2 rest lvl ih =>
    rw [okSeq] at hok
    rw [walk_outline, List.chain'_cons']
    constructor
    · intro h hh
      obtain ⟨tail, htail⟩ := walk_outline_cons_node t2 p2 rest lvl
      rw [htail] at hh
      simp at hh
      simp [← hh]
    · exact ih hok

/-- C7 witness: a structure with one parent and one properly grouped child
is well-nested and its walk satisfies the no-jump chain property. -/
theorem walk_outline_chain_witness :
    okSeq [.node ['a'] none, .group [.node ['b'] none]] = true ∧
    List.Chain' (fun a b : Entry => b.1 ≤ a.1 + 1)
      (walk_outline [.node ['a'] none, .group [.node ['b'] none]] 1) :=
  ⟨by simp [okSeq, headNode], walk_outline_chain _ 1 (by simp [okSeq, headNode])⟩

/-- C7 counterexample: on the raw structure `[A, [[B]]]` — the child list
holds a further bare sub-list — the walk emits `A` at level 1 and `B` at
level 3: the second entry's level exceeds both its predecessor's level and
the maximum level seen so far by two, so the claim as stated (for every
raw outline structure) fails. -/
theorem walk_outline_level_jump_cex :
    walk_outline [.node ['a'] none, .group [.group [.node ['b'] none]]] 1 =
      [(1, ['a'], none), (3, ['b'], none)] ∧
    ¬ List.Chain' (fun a b : Entry => b.1 ≤ a.1 + 1)
      [((1 : Nat), ['a'], (none : Option Nat)), (3, ['b'], none)] := by
  constructor
  · simp [walk_outline, strip, List.dropWhile, isWS]
  · intro h
    rw [List.chain'_cons] at h
    omega

theorem dropWhile_head_not (p : Char → Bool) (l : List Char) :
    ∀ x ∈ (l.dropWhile p).head?, p x = false := by
  induction l with
  | nil => simp [List.dropWhile]
  | cons a l ih =>
    by_cases h : p a
    · simpa [List.dropWhile, h] using ih
    · simp [List.dropWhile, h]

theorem dropWhile_eq_self_of_head (p : Char → Bool) (l : List Char)
    (h : ∀ x ∈ l.head?, p x = false) : l.dropWhile p = l := by
  cases l with
  | nil => rfl
  | cons a l => simp [List.dropWhile, h a rfl]

theorem getLast?_dropWhile (p : Char → Bool) (l : List Char)
    (h : l.dropWhile p ≠ []) : (l.dropWhile p).getLast? = l.getLast? := by
  obtain ⟨pre, hpre⟩ := List.dropWhile_suffix (l := l) p
  conv_rhs => rw [← hpre]
  rw [List.getLast?_append_of_ne_nil _ h]

/-- A stripped string starts with a non-whitespace character (when it
starts at all). -/
theorem strip_head_not (s : List Char) :
    ∀ x ∈ (strip s).head?, isWS x = false := by
  intro x hx
  rw [strip, List.head?_reverse] at hx
  by_cases hnil : (s.dropWhile isWS).reverse.dropWhile isWS = []
  · simp [hnil] at hx
  · rw [getLast?_dropWhile _ _ hnil, List.getLast?_reverse] at hx
    exact dropWhile_head_not isWS s x hx

/-- A stripped string ends with a non-whitespace character (when it is
non-empty). -/
theorem strip_getLast_not (s : List Char) :
    ∀ x ∈ (strip s).getLast?, isWS x = false := by
  intro x hx
  rw [strip, List.getLast?_reverse] at hx
  exact dropWhile_head_not isWS _ x hx

/-- Stripping is idempotent: a stripped title carries no surrounding
whitespace left to strip. -/
theorem strip_idem (s : List Char) : strip (strip s) = strip s := by
  have h1 : (strip s).dropWhile isWS = strip s :=
    dropWhile_eq_self_of_head _ _ (strip_head_not s)
  show (((strip s).dropWhile isWS).reverse.dropWhile isWS).reverse = strip s
  rw [h1]
  have h2 : (strip s).reverse = (s.dropWhile isWS).reverse.dropWhile isWS := by
    simp [strip]
  rw [h2, dropWhile_eq_self_of_head _ _ (dropWhile_head_not _ _)]
  simp [strip]

theorem walk_outline_title_stripped (seq : List RawItem) (lvl : Nat) :
    ∀ e ∈ walk_outline seq lvl, strip e.2.1 = e.2.1 := by
  induction seq, lvl using walk_outline.induct with
  | case1 lvl => simp [walk_outline]
  | case2 g rest lvl ih1 ih2 =>
    intro e he
    rw [walk_outline] at he
    rcases List.mem_append.mp he with h | h
    exacts [ih1 e h, ih2 e h]
  | case3 t p lvl =>
    intro e he
    rw [walk_outline] at he
    simp only [List.mem_singleton] at he
    subst he
    exact strip_idem t
  | case4 t p g rest lvl ih1 ih2 =>
    intro e he
    rw [walk_outline] at he
    rcases List.mem_cons.mp he with h | h
    · subst h
      exact strip_idem t
    · rcases List.mem_append.mp h with h | h
      exacts [ih1 e h, ih2 e h]
  | case5 t p t2 p2 rest lvl ih =>
    intro e he
    rw [walk_outline] at he
    rcases List.mem_cons.mp he with h | h
    · subst h
      exact strip_idem t
    · exact ih e h

/-- C10: every title in the flattener's output — on the list path and on
the single-node fallback path alike — is stripped of leading and trailing
whitespace: stripping an emitted title again changes nothing. -/
theorem extract_bookmarks_titles_stripped (o : RawOutline) :
    ∀ e ∈ extract_bookmarks o, strip e.2.1 = e.2.1 := by
  cases o with
  | list items => exact walk_outline_title_stripped items 1
  | single t p =>
    intro e he
    simp only [extract_bookmarks, List.mem_singleton] at he
    subst he
    exact strip_idem t

/-- C10 witness: the fallback path strips the title `" a"` to `"a"`, and
that emitted title is strip-fixed. -/
theorem extract_bookmarks_titles_stripped_witness : strip ['a'] = ['a'] :=
  extract_bookmarks_titles_stripped (.single [' ', 'a'] none)
    (1, ['a'], none) (by decide)

/-! ## PDF layout (`draw_toc_pdf`)

ReportLab's `stringWidth` for a Type-1 font is the sum of per-character
advance widths scaled by the font size; the widths come from font metric
files outside this repository, so the layout is parameterised by a
per-character width oracle `cw : Char → ℚ` (one for the bold face, one for
the regular face), already scaled to the 12-point size the source uses. -/

/-- `pdfmetrics.stringWidth`: additive in the characters. -/
def strWidth (cw : Char → ℚ) (s : List Char) : ℚ := (s.map cw).sum

/-- ReportLab's `mm` unit in points: `72 / 25.4`. -/
def mmQ : ℚ := 72 / (254 / 10)

/-- A4 page width, `210 * mm`. -/
def pageWidth : ℚ := 210 * mmQ

/-- A4 page height, `297 * mm`. -/
def pageHeight : ℚ := 297 * mmQ

/-- Left margin, line 89. -/
def leftM : ℚ := 25 * mmQ

/-- Right margin, line 90. -/
def rightM : ℚ := 25 * mmQ

/-- Bottom margin, line 92. -/
def bottomM : ℚ := 20 * mmQ

/-- Right edge of the page-number column, line 94. -/
def pageColX : ℚ := pageWidth - rightM

/-- Vertical cursor position returned by `header()` (lines 96-104):
`top - 20mm - 10mm` with `top = height - 25mm`. -/
def headerEndY : ℚ := (pageHeight - 25 * mmQ) - 20 * mmQ - 10 * mmQ

/-- Line height, line 110. -/
def lineH : ℚ := 7 * mmQ

/-- The truncation `while` loop, lines 136-137: while the measured width
exceeds the available width and more than 6 characters remain, drop the
last two characters (`t = t[:-2]`). -/
def truncLoop (cw : Char → ℚ) (maxW : ℚ) (t : List Char) : List Char :=
  if maxW < strWidth cw t ∧ 6 < t.length then
    truncLoop cw maxW t.dropLast.dropLast
  else t
termination_by t.length
decreasing_by
  simp only [List.length_dropLast]
  omega

/-- Lines 135-139: run the truncation loop; when it shortened the title,
right-strip it and append the ellipsis character. -/
def truncateTitle (cw : Char → ℚ) (maxW : ℚ) (title : List Char) : List Char :=
  if truncLoop cw maxW title ≠ title then
    rstrip (truncLoop cw maxW title) ++ ['…']
  else truncLoop cw maxW title

/-- One rendered line: the entry it came from and the title text actually
drawn. -/
abbrev LineRec := Entry × List Char

/-- Layout-loop state: finished pages, the page being filled, and the
vertical cursor. -/
structure DrawState where
  pages : List (List LineRec)
  cur : List LineRec
  y : ℚ

/-- One iteration of the entry loop of `draw_toc_pdf` (lines 112-158):
break the page when the cursor would fall below the bottom margin, pick
the face by level, truncate the title to the column left of the
page-number field minus the fixed 12 mm gutter, draw one line, advance the
cursor. -/
def drawEntry (cwB cwR : Char → ℚ) (st : DrawState) (e : Entry) : DrawState :=
  let st' := if st.y < bottomM + lineH then
      ⟨st.pages ++ [st.cur], [], headerEndY⟩
    else st
  let cw := if e.1 = 1 then cwB else cwR
  let xText := leftM + ((e.1 : ℚ) - 1) * 8 * mmQ
  let maxW := (pageColX - 12 * mmQ) - xText
  ⟨st'.pages, st'.cur ++ [(e, truncateTitle cw maxW e.2.1)], st'.y - lineH⟩

/-- `draw_toc_pdf` (lines 85-160), viewed as the pages it produces: start
below the first header, lay out every entry in order, and `c.save()`
finalises the page in progress. -/
def draw_toc_pdf (cwB cwR : Char → ℚ) (docTitle : List Char)
    (items : List Entry) : List (List LineRec) :=
  let fin := items.foldl (drawEntry cwB cwR) ⟨[], [], headerEndY⟩
  let _ := docTitle
  fin.pages ++ [fin.cur]

/-- The entries recorded in a layout state, finished pages first. -/
def stateEntries (st : DrawState) : List Entry :=
  (st.pages.map (fun pg => pg.map Prod.fst)).flatten ++ st.cur.map Prod.fst

theorem stateEntries_drawEntry (cwB cwR : Char → ℚ) (st : DrawState)
    (e : Entry) :
    stateEntries (drawEntry cwB cwR st e) = stateEntries st ++ [e] := by
  rw [drawEntry]
  by_cases h : st.y < bottomM + lineH <;>
    simp [h, stateEntries]

theorem stateEntries_foldl (cwB cwR : Char → ℚ) (items : List Entry) :
    ∀ st : DrawState,
      stateEntries (items.foldl (drawEntry cwB cwR) st) =
        stateEntries st ++ items := by
  induction items with
  | nil => simp
  | cons e rest ih =>
    intro st
    rw [List.foldl_cons, ih, stateEntries_drawEntry]
    simp

/-- C2: pagination places every entry exactly once, in input order, never
splitting an entry across pages — concatenating the entries of all
produced pages reproduces the input sequence exactly. -/
theorem draw_toc_pdf_entries (cwB cwR : Char → ℚ) (docTitle : List Char)
    (items : List Entry) :
    ((draw_toc_pdf cwB cwR docTitle items).map
      (fun pg => pg.map Prod.fst)).flatten = items := by
  rw [draw_toc_pdf]
  have h := stateEntries_foldl cwB cwR items ⟨[], [], headerEndY⟩
  simp only [stateEntries] at h
  simp_all [stateEntries]

theorem truncLoopPrefix (cw : Char → ℚ) (maxW : ℚ) (t : List Char) :
    truncLoop cw maxW t <+: t := by
  induction t using truncLoop.induct cw maxW with
  | case1 t hc ih =>
    rw [truncLoop, if_pos hc]
    exact ih.trans ((List.dropLast_prefix _).trans (List.dropLast_prefix _))
  | case2 t hc =>
    rw [truncLoop, if_neg hc]

theorem truncLoop_exit (cw : Char → ℚ) (maxW : ℚ) (t : List Char) :
    strWidth cw (truncLoop cw maxW t) ≤ maxW ∨
      (truncLoop cw maxW t).length ≤ 6 := by
  induction t using truncLoop.induct cw maxW with
  | case1 t hc ih =>
    rw [truncLoop, if_pos hc]
    exact ih
  | case2 t hc =>
    rw [truncLoop, if_neg hc]
    rcases not_and_or.mp hc with h | h
    · exact Or.inl (not_lt.mp h)
    · exact Or.inr (not_lt.mp h)

theorem truncLoop_min_length (cw : Char → ℚ) (maxW : ℚ) (t : List Char)
    (h : 5 ≤ t.length) : 5 ≤ (truncLoop cw maxW t).length := by
  induction t using truncLoop.induct cw maxW with
  | case1 t hc ih =>
    rw [truncLoop, if_pos hc]
    exact ih (by simp only [List.length_dropLast]; omega)
  | case2 t hc =>
    rw [truncLoop, if_neg hc]
    exact h

theorem truncLoop_shrunk (cw : Char → ℚ) (maxW : ℚ) (t : List Char)
    (h : truncLoop cw maxW t ≠ t) :
    (truncLoop cw maxW t).length + 2 ≤ t.length := by
  induction t using truncLoop.induct cw maxW with
  | case1 t hc ih =>
    rw [truncLoop, if_pos hc]
    have hpre := (truncLoopPrefix cw maxW t.dropLast.dropLast).length_le
    simp only [List.length_dropLast] at hpre
    omega
  | case2 t hc =>
    rw [truncLoop, if_neg hc] at h
    exact absurd rfl h

theorem rstripPrefix (t : List Char) : rstrip t <+: t := by
  rw [rstrip]
  obtain ⟨pre, hpre⟩ := List.dropWhile_suffix (l := t.reverse) isWS
  exact ⟨pre.reverse, by rw [← List.reverse_append, hpre, List.reverse_reverse]⟩

theorem strWidth_append (cw : Char → ℚ) (a b : List Char) :
    strWidth cw (a ++ b) = strWidth cw a + strWidth cw b := by
  simp [strWidth]

theorem strWidth_nonneg (cw : Char → ℚ) (h : ∀ c, 0 ≤ cw c) (s : List Char) :
    0 ≤ strWidth cw s := by
  apply List.sum_nonneg
  intro x hx
  obtain ⟨c, _, hc⟩ := List.mem_map.mp hx
  exact hc ▸ h c

theorem strWidth_prefix_le (cw : Char → ℚ) (h : ∀ c, 0 ≤ cw c)
    {a b : List Char} (hp : a <+: b) : strWidth cw a ≤ strWidth cw b := by
  obtain ⟨rest, hrest⟩ := hp
  rw [← hrest, strWidth_append]
  linarith [strWidth_nonneg cw h rest]

/-- C3 (amended): a title that already fits — and also one that overflows
but has at most the minimum residual length of 6 characters — is rendered
verbatim; an overflowing title longer than 6 characters is truncated from
the end (the rendered text minus the ellipsis is a prefix of the input),
comes out strictly shorter than the input, ends in the ellipsis marker,
is never shrunk below 5 characters by the loop, and its un-truncated
portion's measured width fits within the column unless the loop stopped at
the minimum residual length with the text still too wide. -/
theorem truncateTitle_correct (cw : Char → ℚ) (maxW : ℚ) (title : List Char)
    (hcw : ∀ c, 0 ≤ cw c) :
    (strWidth cw title ≤ maxW → truncateTitle cw maxW title = title)
    ∧ (maxW < strWidth cw title → title.length ≤ 6 →
        truncateTitle cw maxW title = title)
    ∧ (maxW < strWidth cw title → 6 < title.length →
        (truncateTitle cw maxW title).length < title.length
        ∧ (truncateTitle cw maxW title).getLast? = some '…'
        ∧ (truncateTitle cw maxW title).dropLast <+: title
        ∧ 5 ≤ (truncLoop cw maxW title).length
        ∧ (strWidth cw ((truncateTitle cw maxW title).dropLast) ≤ maxW
            ∨ (truncLoop cw maxW title).length ≤ 6)) := by
  refine ⟨fun hfit => ?_, fun hover hshort => ?_, fun hover hlen => ?_⟩
  · have hloop : truncLoop cw maxW title = title := by
      rw [truncLoop, if_neg]
      intro hc
      exact absurd hc.1 (not_lt.mpr hfit)
    rw [truncateTitle, hloop, if_neg (by simp)]
  · have hloop : truncLoop cw maxW title = title := by
      rw [truncLoop, if_neg]
      intro hc
      omega
    rw [truncateTitle, hloop, if_neg (by simp)]
  · have hne : truncLoop cw maxW title ≠ title := by
      intro heq
      rcases truncLoop_exit cw maxW title with h | h
      · rw [heq] at h
        exact absurd hover (not_lt.mpr h)
      · rw [heq] at h
        omega
    have hshr := truncLoop_shrunk cw maxW title hne
    have hrs := (rstripPrefix (truncLoop cw maxW title)).length_le
    rw [truncateTitle, if_pos hne]
    refine ⟨?_, List.getLast?_concat _, ?_, truncLoop_min_length cw maxW title
      (by omega), ?_⟩
    · simp only [List.length_append, List.length_singleton]
      omega
    · rw [List.dropLast_concat]
      exact (rstripPrefix _).trans (truncLoopPrefix cw maxW title)
    · rw [List.dropLast_concat]
      rcases truncLoop_exit cw maxW title with h | h
      · exact Or.inl (le_trans
          (strWidth_prefix_le cw hcw (rstripPrefix _)) h)
      · exact Or.inr h

/-- C3 witness: with unit character widths and a 3-unit column, the
8-character title `"abcdefgh"` overflows, is truncated to `"abcdef…"` —
strictly shorter, ellipsis-terminated, a prefix of the input before the
ellipsis, not below the residual minimum — and here the loop stopped at
the length guard. -/
theorem truncateTitle_correct_witness :
    (truncateTitle (fun _ => (1 : ℚ)) 3
        ['a', 'b', 'c', 'd', 'e', 'f', 'g', 'h']).length <
      (['a', 'b', 'c', 'd', 'e', 'f', 'g', 'h'] : List Char).length
    ∧ (truncateTitle (fun _ => (1 : ℚ)) 3
        ['a', 'b', 'c', 'd', 'e', 'f', 'g', 'h']).getLast? = some '…'
    ∧ (truncateTitle (fun _ => (1 : ℚ)) 3
        ['a', 'b', 'c', 'd', 'e', 'f', 'g', 'h']).dropLast <+:
        ['a', 'b', 'c', 'd', 'e', 'f', 'g', 'h']
    ∧ 5 ≤ (truncLoop (fun _ => (1 : ℚ)) 3
        ['a', 'b', 'c', 'd', 'e', 'f', 'g', 'h']).length
    ∧ (strWidth (fun _ => (1 : ℚ))
          ((truncateTitle (fun _ => (1 : ℚ)) 3
            ['a', 'b', 'c', 'd', 'e', 'f', 'g', 'h']).dropLast) ≤ 3
        ∨ (truncLoop (fun _ => (1 : ℚ)) 3
            ['a', 'b', 'c', 'd', 'e', 'f', 'g', 'h']).length ≤ 6) :=
  (truncateTitle_correct (fun _ => (1 : ℚ)) 3
      ['a', 'b', 'c', 'd', 'e', 'f', 'g', 'h'] (fun _ => by norm_num)).2.2
    (by norm_num [strWidth]) (by norm_num)

/-- C3 counterexample: with unit character widths and a 3-unit column the
6-character title `"abcdef"` overflows, yet the length guard (`len > 6`)
keeps the loop from running at all: the title is rendered verbatim — not
shorter, no ellipsis, still wider than the column — refuting the claim
that every overflowing title is truncated to fit. -/
theorem truncateTitle_cex :
    3 < strWidth (fun _ => (1 : ℚ)) ['a', 'b', 'c', 'd', 'e', 'f']
    ∧ truncateTitle (fun _ => (1 : ℚ)) 3 ['a', 'b', 'c', 'd', 'e', 'f'] =
        ['a', 'b', 'c', 'd', 'e', 'f'] := by
  constructor
  · norm_num [strWidth]
  · rw [truncateTitle, truncLoop]
    norm_num [strWidth]

/-! ## Tabular sheet (`write_toc_excel`) -/

/-- Python `"    " * (level - 1)`: four spaces per level above 1. -/
def indentPrefix (lvl : Nat) : List Char := List.replicate (4 * (lvl - 1)) ' '

/-- One sheet row: document title, indented title, page cell (blank when
the page is unknown). -/
abbrev SheetRow := List Char × List Char × Option Nat

/-- The write loop of `write_toc_excel` (lines 176-181): one row per
entry, starting at the given row number, in input order. -/
def writeRows (docTitle : List Char) : Nat → List Entry → List (Nat × SheetRow)
  | _, [] => []
  | r, e :: rest =>
      (r, (docTitle, indentPrefix e.1 ++ e.2.1, e.2.2)) ::
        writeRows docTitle (r + 1) rest

/-- `write_toc_excel` (lines 166-183), viewed as the data rows it leaves
in the sheet (the template copy's demo rows are cleared first, so the data
region is exactly these rows, starting at row 2). -/
def write_toc_excel (docTitle : List Char) (items : List Entry) :
    List (Nat × SheetRow) :=
  writeRows docTitle 2 items

theorem writeRows_spec (docTitle : List Char) (items : List Entry) :
    ∀ r, (writeRows docTitle r items).map Prod.snd =
        items.map (fun e => (docTitle, indentPrefix e.1 ++ e.2.1, e.2.2))
      ∧ (writeRows docTitle r items).map Prod.fst =
        List.range' r items.length := by
  induction items with
  | nil => simp [writeRows, List.range']
  | cons e rest ih =>
    intro r
    have h := ih (r + 1)
    simp [writeRows, h.1, h.2, List.range']

/-- C6: the sheet writer emits exactly one row per entry, at rows 2, 3, …
in input order without sorting; each row is
`(document title, indent ++ title, page-or-blank)` with four indent spaces
per level above 1 — in particular a level-2 entry `"Background"` becomes
`"    Background"`. -/
theorem write_toc_excel_rows (docTitle : List Char) (items : List Entry) :
    (write_toc_excel docTitle items).map Prod.snd =
      items.map (fun e => (docTitle, indentPrefix e.1 ++ e.2.1, e.2.2))
    ∧ (write_toc_excel docTitle items).map Prod.fst =
      List.range' 2 items.length
    ∧ write_toc_excel "Doc".toList [(2, "Background".toList, some 2)] =
      [(2, ("Doc".toList, "    Background".toList, some 2))] :=
  ⟨(writeRows_spec docTitle items 2).1, (writeRows_spec docTitle items 2).2,
    by decide⟩

/-! ## Master ledger (`append_master`) -/

/-- A ledger data row as its three cell values (`none` = blank cell). -/
abbrev MRow := Option (List Char) × Option (List Char) × Option Nat

/-- An incoming master row `(documentTitle, indentedTitle, page)`. -/
abbrev MasterRow := List Char × List Char × Option Nat

/-- Line 204: a structurally empty row — all three cells blank. -/
def isBlank (r : MRow) : Bool := r.1 = none && r.2.1 = none && r.2.2 = none

/-- Writing an incoming row stores its components in the three cells. -/
def toCell (rv : MasterRow) : MRow := (some rv.1, some rv.2.1, rv.2.2)

/-- Lines 198-206: the dedupe set — the cell triples of every row that is
not entirely blank. -/
def existingTriples (ledger : List MRow) : List MRow :=
  ledger.filter (fun r => !isBlank r)

/-- Lines 209-213: linear scan for the first structurally empty data row,
as a 0-based index into the data region (row 2 is index 0). Cells beyond
the sheet's last row read back blank, so the scan stops at latest one row
past the data region and the 20000-row safety cutoff is never reached. -/
def firstEmptyIdx : List MRow → Nat
  | [] => 0
  | r :: rest => if isBlank r then 0 else firstEmptyIdx rest + 1

/-- Setting the three cells of row `i`: overwrite the row, extending the
data region with blank rows when `i` lies beyond it. -/
def setRow (l : List MRow) (i : Nat) (v : MRow) : List MRow :=
  if i < l.length then l.set i v
  else l ++ List.replicate (i - l.length) (none, none, none) ++ [v]

/-- Lines 215-221: write each incoming row at the cursor and advance it,
except that with dedupe on a row whose triple is in the dedupe set is
skipped. -/
def appendLoop (existing : List MRow) (dedupe : Bool) :
    List MasterRow → Nat → List MRow → List MRow
  | [], _, l => l
  | rv :: rest, r, l =>
      if dedupe && decide (toCell rv ∈ existing) then
        appendLoop existing dedupe rest r l
      else
        appendLoop existing dedupe rest (r + 1) (setRow l r (toCell rv))

/-- `append_master` (lines 185-223) acting on the ledger's data region
(creating the ledger from the template clears the demo rows, giving the
empty region). -/
def append_master (ledger : List MRow) (rows : List MasterRow)
    (dedupe : Bool) : List MRow :=
  appendLoop (existingTriples ledger) dedupe rows (firstEmptyIdx ledger) ledger

theorem appendLoop_spec (existing : List MRow) (dedupe : Bool)
    (rows : List MasterRow) :
    ∀ (l : List MRow) (r : Nat), r = l.length →
      appendLoop existing dedupe rows r l =
        l ++ (rows.filter
          (fun rv => !(dedupe && decide (toCell rv ∈ existing)))).map toCell := by
  induction rows with
  | nil => simp [appendLoop]
  | cons rv rest ih =>
    intro l r hr
    rw [appendLoop]
    by_cases hdd : (dedupe && decide (toCell rv ∈ existing)) = true
    · rw [if_pos hdd, ih l r hr, List.filter_cons]
      have hf : (!(dedupe && decide (toCell rv ∈ existing))) = false := by
        rw [hdd]; rfl
      rw [hf]
      simp
    · have hdd' : (dedupe && decide (toCell rv ∈ existing)) = false := by
        revert hdd
        cases dedupe && decide (toCell rv ∈ existing) <;> simp
      rw [if_neg hdd]
      have hset : setRow l r (toCell rv) = l ++ [toCell rv] := by
        rw [setRow, if_neg (by omega), hr]
        simp
      rw [hset, ih (l ++ [toCell rv]) (r + 1) (by simp [hr]), List.filter_cons]
      have hf : (!(dedupe && decide (toCell rv ∈ existing))) = true := by
        rw [hdd']; rfl
      rw [hf]
      simp

theorem firstEmptyIdx_all_nonblank (l : List MRow)
    (h : ∀ r ∈ l, isBlank r = false) : firstEmptyIdx l = l.length := by
  induction l with
  | nil => rfl
  | cons a l ih =>
    rw [firstEmptyIdx, if_neg (by simp [h a (List.mem_cons_self a l)])]
    simp [ih fun r hr => h r (List.mem_cons_of_mem a hr)]

theorem existingTriples_all_nonblank (l : List MRow)
    (h : ∀ r ∈ l, isBlank r = false) : existingTriples l = l := by
  rw [existingTriples, List.filter_eq_self]
  intro r hr
  simp [h r hr]

/-- Shared characterisation: on a ledger with no blank data rows, a
dedupe-enabled merge appends — in order, at the end — exactly those
incoming rows whose cell triple is not already in the ledger, each one
judged against the pre-call ledger only. -/
theorem append_master_dedupe_eq (ledger : List MRow) (rows : List MasterRow)
    (h : ∀ r ∈ ledger, isBlank r = false) :
    append_master ledger rows true =
      ledger ++ (rows.filter
        (fun rv => !decide (toCell rv ∈ ledger))).map toCell := by
  rw [append_master, existingTriples_all_nonblank ledger h,
    firstEmptyIdx_all_nonblank ledger h,
    appendLoop_spec ledger true rows ledger ledger.length rfl]
  simp only [Bool.true_and]

theorem appendLoop_prefilter (existing : List MRow) (rows : List MasterRow) :
    ∀ (r : Nat) (l : List MRow),
      appendLoop existing true rows r l =
        appendLoop [] false
          (rows.filter (fun rv => !decide (toCell rv ∈ existing))) r l := by
  induction rows with
  | nil => intro r l; rfl
  | cons rv rest ih =>
    intro r l
    rw [appendLoop, List.filter_cons]
    by_cases hmem : toCell rv ∈ existing
    · rw [if_pos (by simp [hmem])]
      have hf : (!decide (toCell rv ∈ existing)) = false := by simp [hmem]
      rw [hf, if_neg (by simp)]
      exact ih r l
    · rw [if_neg (by simp [hmem])]
      have hf : (!decide (toCell rv ∈ existing)) = true := by simp [hmem]
      rw [hf, if_pos rfl, appendLoop, if_neg (by simp)]
      exact ih (r + 1) (setRow l r (toCell rv))

/-- C4: with dedupe enabled the merge behaves exactly like a dedupe-free
merge of the incoming batch pre-filtered against the ledger's non-blank
cell triples as they were before the call: a row is skipped if and only if
its `(documentTitle, indentedTitle, page)` triple equals a non-blank
triple already in the ledger, and rows are never deduplicated against the
same batch — in-batch duplicates not in the ledger are all written. On a
ledger with no blank data rows this appends the surviving rows at the end,
in order. -/
theorem append_master_dedupe_spec (ledger : List MRow) (rows : List MasterRow) :
    (append_master ledger rows true =
      appendLoop [] false
        (rows.filter (fun rv => !decide (toCell rv ∈ existingTriples ledger)))
        (firstEmptyIdx ledger) ledger)
    ∧ ((∀ r ∈ ledger, isBlank r = false) →
        append_master ledger rows true =
          ledger ++ (rows.filter
            (fun rv => !decide (toCell rv ∈ ledger))).map toCell) :=
  ⟨by rw [append_master, appendLoop_prefilter],
    fun h => append_master_dedupe_eq ledger rows h⟩

/-- C4 witness: a one-row ledger; an incoming batch whose first row
matches the ledger (skipped) and whose remaining two rows are in-batch
duplicates of each other (both appended). -/
theorem append_master_dedupe_spec_witness :
    (∀ r ∈ [((some ['D'], some ['I'], some 1) : MRow)], isBlank r = false)
    ∧ append_master [((some ['D'], some ['I'], some 1) : MRow)]
        [(['D'], ['I'], some 1), (['X'], ['Y'], none), (['X'], ['Y'], none)]
        true =
      [(some ['D'], some ['I'], some 1), (some ['X'], some ['Y'], none),
        (some ['X'], some ['Y'], none)] := by
  constructor
  · decide
  · rw [(append_master_dedupe_spec _ _).2 (by decide)]
    decide

/-- Line 269: the page cell of a pending master row uses Python
truthiness (`int(page) if page else None`) — a page of `0` would be stored
blank (pages from extraction are 1-based, so this matches "blank when
unknown"). -/
def pageTruthy : Option Nat → Option Nat
  | none => none
  | some n => if n = 0 then none else some n

/-- Lines 268-269: the pending master rows accumulated for one document —
the same indented-title formatting as the per-document sheet. -/
def masterRows (docTitle : List Char) (items : List Entry) : List MasterRow :=
  items.map (fun e => (docTitle, indentPrefix e.1 ++ e.2.1, pageTruthy e.2.2))

/-- C5: merging the same single-document batch a second time with dedupe
enabled changes nothing — the ledger after the second merge equals (in
particular, has the same row count as) the ledger after the first. -/
theorem append_master_idem (ledger : List MRow) (docTitle : List Char)
    (items : List Entry) (h : ∀ r ∈ ledger, isBlank r = false) :
    append_master (append_master ledger (masterRows docTitle items) true)
        (masterRows docTitle items) true =
      append_master ledger (masterRows docTitle items) true
    ∧ (append_master (append_master ledger (masterRows docTitle items) true)
        (masterRows docTitle items) true).length =
      (append_master ledger (masterRows docTitle items) true).length := by
  have hmain : append_master (append_master ledger (masterRows docTitle items)
      true) (masterRows docTitle items) true =
      append_master ledger (masterRows docTitle items) true := by
    set rows := masterRows docTitle items with hrows
    have h1 := append_master_dedupe_eq ledger rows h
    have hl1 : ∀ r ∈ append_master ledger rows true, isBlank r = false := by
      rw [h1]
      intro r hr
      rcases List.mem_append.mp hr with hm | hm
      · exact h r hm
      · obtain ⟨rv, _, hrv⟩ := List.mem_map.mp hm
        rw [← hrv]
        rfl
    rw [append_master_dedupe_eq (append_master ledger rows true) rows hl1]
    have hfilter : rows.filter
        (fun rv => !decide (toCell rv ∈ append_master ledger rows true)) = [] := by
      rw [List.filter_eq_nil_iff]
      intro rv hrv
      have hin : toCell rv ∈ append_master ledger rows true := by
        rw [h1]
        by_cases hmem : toCell rv ∈ ledger
        · exact List.mem_append.mpr (Or.inl hmem)
        · exact List.mem_append.mpr (Or.inr (List.mem_map.mpr
            ⟨rv, List.mem_filter.mpr ⟨hrv, by simp [hmem]⟩, rfl⟩))
      simp [hin]
    rw [hfilter]
    simp
  exact ⟨hmain, by rw [hmain]⟩

/-- C5 witness: an empty ledger and a one-entry document — the second
identical merge is a no-op. -/
theorem append_master_idem_witness :
    (∀ r ∈ ([] : List MRow), isBlank r = false)
    ∧ append_master
        (append_master [] (masterRows ['D'] [(1, ['I'], some 1)]) true)
        (masterRows ['D'] [(1, ['I'], some 1)]) true =
      append_master [] (masterRows ['D'] [(1, ['I'], some 1)]) true :=
  ⟨by simp, (append_master_idem [] ['D'] [(1, ['I'], some 1)] (by simp)).1⟩

/-! ## Batch runner (`run_batch`) and entry point (`App.on_start`)

Per-file processing can raise anywhere inside the `try` block of
`run_batch`; the model injects the failure point per file. A failure
inside `draw_toc_pdf` leaves no file (ReportLab's canvas writes only at
the final `c.save()`); a failure inside `write_toc_excel` after the
`shutil.copy` leaves both the already-saved PDF and the unfilled template
copy in the output directory. -/

/-- Where, if anywhere, processing of one source file raises. -/
inductive FailPoint where
  | noFail
  | inExtract
  | inDraw
  | inExcel
  deriving DecidableEq

/-- One source PDF for the batch model: base name (`pdf_path.stem`), the
entries its outline flattens to, and the injected failure point. -/
structure SrcFile where
  name : List Char
  items : List Entry
  fail : FailPoint
  deriving DecidableEq

/-- Batch-loop state: counters, files written to the output directory,
and the pending master rows. -/
structure BatchState where
  ok : Nat
  err : Nat
  outputs : List (List Char)
  masterPending : List MasterRow
  deriving DecidableEq

/-- Line 262. -/
def pdfName (n : List Char) : List Char := n ++ "_Inhaltsverzeichnis.pdf".toList

/-- Line 263. -/
def xlsxName (n : List Char) : List Char := n ++ "_Inhaltsverzeichnis.xlsx".toList

/-- One iteration of the file loop (lines 253-273): an extraction failure
is counted and nothing is written; a file with no outline entries is
skipped silently; a drawing failure is counted before any file is saved; a
sheet-writer failure is counted after the PDF was saved and the template
copied; on success both outputs are written, the master rows accumulate
and the success counter increments. -/
def processFile (st : BatchState) (f : SrcFile) : BatchState :=
  match f.fail with
  | .inExtract => { st with err := st.err + 1 }
  | .inDraw =>
      if f.items.isEmpty then st else { st with err := st.err + 1 }
  | .inExcel =>
      if f.items.isEmpty then st
      else { st with
              err := st.err + 1
              outputs := st.outputs ++ [pdfName f.name, xlsxName f.name] }
  | .noFail =>
      if f.items.isEmpty then st
      else { st with
              ok := st.ok + 1
              outputs := st.outputs ++ [pdfName f.name, xlsxName f.name]
              masterPending := st.masterPending ++ masterRows f.name f.items }

/-- The per-file loop of `run_batch` over the whole file list. -/
def runBatchFiles (files : List SrcFile) : BatchState :=
  files.foldl processFile ⟨0, 0, [], []⟩

/-- `run_batch` (lines 244-278): process every file, then merge the
accumulated master rows into the ledger once, when there are any. -/
def run_batch (files : List SrcFile) (ledger : List MRow) (dedupe : Bool) :
    BatchState × List MRow :=
  let st := runBatchFiles files
  (st, if st.masterPending.isEmpty then ledger
    else append_master ledger st.masterPending dedupe)

/-- Outcome of the `Start` button: either exactly one error dialog and no
batch run, or a completed batch. -/
inductive StartOutcome where
  | errorDialog (msg : List Char)
  | finished (st : BatchState) (ledger : List MRow)

/-- Dialog text of line 338. -/
def msgMissingDirs : List Char :=
  "Bitte Eingabe- und Ausgabeordner wählen.".toList

/-- Dialog text of line 341 (its fixed prefix). -/
def msgMissingTemplate : List Char := "Template nicht gefunden".toList

/-- `App.on_start` (lines 334-352): with a blank input or output field,
show one dialog and return; with the template file absent, show one dialog
and return; otherwise run the batch. `inp` and `out` are the field values
after the source's `.strip()`. -/
def on_start (inp out : List Char) (templateExists : Bool)
    (files : List SrcFile) (ledger : List MRow) (dedupe : Bool) :
    StartOutcome :=
  if inp.isEmpty || out.isEmpty then .errorDialog msgMissingDirs
  else if !templateExists then .errorDialog msgMissingTemplate
  else
    let r := run_batch files ledger dedupe
    .finished r.1 r.2

/-- C8: when the template is absent at batch start (and the directory
fields are filled in), the entry point produces exactly one error dialog —
the template error — and never reaches the batch: no file is processed, no
per-document output is written, no counter is touched. -/
theorem on_start_missing_template (inp out : List Char)
    (files : List SrcFile) (ledger : List MRow) (dedupe : Bool)
    (hi : inp ≠ []) (ho : out ≠ []) :
    on_start inp out false files ledger dedupe =
      .errorDialog msgMissingTemplate
    ∧ ∀ (st : BatchState) (l : List MRow),
        on_start inp out false files ledger dedupe ≠ .finished st l := by
  have h : on_start inp out false files ledger dedupe =
      .errorDialog msgMissingTemplate := by
    rw [on_start, if_neg (by simp [hi, ho])]
    rfl
  exact ⟨h, fun st l hcon => by rw [h] at hcon; exact StartOutcome.noConfusion hcon⟩

/-- C8 witness: non-blank directory fields, template absent — the outcome
is the single template-error dialog. -/
theorem on_start_missing_template_witness :
    (['i'] ≠ ([] : List Char)) ∧ (['o'] ≠ ([] : List Char))
    ∧ on_start ['i'] ['o'] false [] [] true =
        .errorDialog msgMissingTemplate :=
  ⟨by simp, by simp,
    (on_start_missing_template ['i'] ['o'] [] [] true (by simp) (by simp)).1⟩

/-- Is this file counted as a failure by the batch loop? Extraction
failures always; later failures only when the file was not already
skipped for having no outline entries. -/
def fileFails (f : SrcFile) : Bool :=
  match f.fail with
  | .inExtract => true
  | .noFail => false
  | _ => !f.items.isEmpty

/-- Is this file counted as a success (processed fully, with entries)? -/
def fileSucceeds (f : SrcFile) : Bool :=
  match f.fail with
  | .noFail => !f.items.isEmpty
  | _ => false

/-- The files processing of this source file leaves in the output
directory. -/
def fileOutputs (f : SrcFile) : List (List Char) :=
  match f.fail with
  | .inExtract => []
  | .inDraw => []
  | _ => if f.items.isEmpty then [] else [pdfName f.name, xlsxName f.name]

/-- The master rows this source file contributes to the pending set. -/
def fileMasterRows (f : SrcFile) : List MasterRow :=
  if fileSucceeds f then masterRows f.name f.items else []

theorem processFile_delta (st : BatchState) (f : SrcFile) :
    processFile st f =
      ⟨st.ok + (if fileSucceeds f then 1 else 0),
       st.err + (if fileFails f then 1 else 0),
       st.outputs ++ fileOutputs f,
       st.masterPending ++ fileMasterRows f⟩ := by
  cases hf : f.fail <;> by_cases hi : f.items.isEmpty <;>
    simp [processFile, fileSucceeds, fileFails, fileOutputs, fileMasterRows,
      hf, hi]

theorem runBatch_fold (files : List SrcFile) :
    ∀ st : BatchState,
      files.foldl processFile st =
        ⟨st.ok + (files.filter fileSucceeds).length,
         st.err + (files.filter fileFails).length,
         st.outputs ++ (files.map fileOutputs).flatten,
         st.masterPending ++ (files.map fileMasterRows).flatten⟩ := by
  induction files with
  | nil => intro st; simp
  | cons f fs ih =>
    intro st
    rw [List.foldl_cons, processFile_delta, ih]
    by_cases hs : fileSucceeds f <;> by_cases hfl : fileFails f <;>
      simp [List.filter_cons, hs, hfl, BatchState.mk.injEq] <;> omega

/-- C9 (amended): every per-file failure is absorbed — the batch continues
and the failure counter counts exactly the failing files, the success
counter exactly the fully processed ones, and a failed file contributes no
master rows; but the output directory may retain partial per-document
outputs for a failed file: the outputs are exactly each file's
`fileOutputs`, which for a sheet-writer failure include the already-saved
PDF and the unfilled template copy. -/
theorem run_batch_absorbs_failures (files : List SrcFile) :
    (runBatchFiles files).err = (files.filter fileFails).length
    ∧ (runBatchFiles files).ok = (files.filter fileSucceeds).length
    ∧ (runBatchFiles files).masterPending = (files.map fileMasterRows).flatten
    ∧ (runBatchFiles files).outputs = (files.map fileOutputs).flatten := by
  rw [runBatchFiles, runBatch_fold files ⟨0, 0, [], []⟩]
  simp

/-- C9 counterexample: a batch of two files where the first fails inside
the sheet writer and the second succeeds. The failure is absorbed (one
failure, one success — the batch continued), yet the failed file's PDF and
its unfilled template copy remain in the output directory: a half-written
per-document state for the failed file, refuting the claim as stated. -/
theorem run_batch_partial_output_cex :
    (runBatchFiles [⟨['A'], [(1, ['t'], some 1)], .inExcel⟩,
        ⟨['B'], [(1, ['u'], some 2)], .noFail⟩]).err = 1
    ∧ (runBatchFiles [⟨['A'], [(1, ['t'], some 1)], .inExcel⟩,
        ⟨['B'], [(1, ['u'], some 2)], .noFail⟩]).ok = 1
    ∧ pdfName ['A'] ∈ (runBatchFiles [⟨['A'], [(1, ['t'], some 1)], .inExcel⟩,
        ⟨['B'], [(1, ['u'], some 2)], .noFail⟩]).outputs
    ∧ xlsxName ['A'] ∈ (runBatchFiles [⟨['A'], [(1, ['t'], some 1)], .inExcel⟩,
        ⟨['B'], [(1, ['u'], some 2)], .noFail⟩]).outputs := by
  decide

end TocTool
